import Mathlib

/-!
# Verification of the GCS auth-translating transport (`core/storage/gcp/gcp.go`)

Shallow embedding of the Go package `gcp` of this repository.  The embedding
follows the source line by line:

* HTTP headers (`http.Header`, a Go `map[string][]string`) are modelled as
  association lists `List (String × List String)` with map-style operations
  `hget` (map read), `hset` (map assignment / `Header.Set`), `hdel`
  (`delete`).  Claims about headers are stated through `hget`, so list order
  is irrelevant.
* The Go `for k, v := range req.Header` loop that renames `X-Amz-` headers is
  modelled as a left fold of the loop body over a snapshot of the map's keys,
  reading each key's value from the current map at visit time.  Go's map
  iteration may or may not visit entries inserted during iteration; inserted
  keys here always carry the `X-Goog-` prefix, for which the loop body is a
  no-op, so iterating exactly the original keys is a faithful choice.
* `strings.HasPrefix`, `strings.Contains` and `strings.Replace (n = 1)` are
  implemented on `List Char`.
* `oauth2.Token` is a string plus an expiry instant (an `Int`, in seconds;
  the Go zero `time.Time` is modelled as `0`).  `Token.Valid` of
  `golang.org/x/oauth2` (the method called by `RoundTrip`) is
  `t != nil && t.AccessToken != "" && !t.expired()` with the default
  `expiryDelta` of 10 seconds, and a zero expiry means the token never
  expires; `tokenValid`/`tokenExpired` transcribe that.
* External effects of one `RoundTrip` call are made explicit: the token
  source's `Token()` result for the call is a field of the transport model,
  and the outcome records the headers of the request handed to the backend
  (if any), the returned error, the number of `Token()` invocations and the
  cache contents after the call.
-/

namespace Gcp

/-! ## Go `strings` helpers, on `List Char` -/

/-- `strings.HasPrefix` on char lists: `p` is a prefix of `s`. -/
def pfxOf : List Char → List Char → Bool
  | [], _ => true
  | _ :: _, [] => false
  | a :: as, b :: bs => if a = b then pfxOf as bs else false

/-- `strings.Contains` on char lists: `sub` occurs somewhere in `s`. -/
def containsSub (sub : List Char) : List Char → Bool
  | [] => pfxOf sub []
  | l@(_ :: rest) => pfxOf sub l || containsSub sub rest

/-- `strings.Replace(s, old, new, 1)` on char lists: replace the first
occurrence of `old` (if any) by `new`. -/
def replace1 (old new : List Char) : List Char → List Char
  | [] => if pfxOf old [] then new else []
  | c :: rest =>
    if pfxOf old (c :: rest) then new ++ List.drop old.length (c :: rest)
    else c :: replace1 old new rest

/-- `strings.HasPrefix` on `String`s, via the underlying char lists. -/
def hasPfx (s p : String) : Bool := pfxOf p.data s.data

/-- `strings.Contains` on `String`s. -/
def goContains (s sub : String) : Bool := containsSub sub.data s.data

/-- `strings.Replace(s, old, new, 1)` on `String`s. -/
def goReplace1 (s old new : String) : String := ⟨replace1 old.data new.data s.data⟩

theorem pfxOf_append (p r : List Char) : pfxOf p (p ++ r) = true := by
  induction p with
  | nil => rfl
  | cons a as ih => simp [pfxOf, ih]

theorem pfxOf_eq_append {p s : List Char} (h : pfxOf p s = true) :
    s = p ++ s.drop p.length := by
  induction p generalizing s with
  | nil => simp
  | cons a as ih =>
    cases s with
    | nil => simp [pfxOf] at h
    | cons b bs =>
      rw [pfxOf] at h
      split at h
      · rename_i hab
        subst hab
        simpa using ih h
      · exact absurd h (by simp)

theorem replace1_of_pfx {old s : List Char} (new : List Char)
    (h : pfxOf old s = true) :
    replace1 old new s = new ++ s.drop old.length := by
  cases s with
  | nil => simp [replace1, h]
  | cons c rest => simp [replace1, h]

/-! ## The two header-name prefixes (`_xAmzPrefix`, `_xGoogPrefix` in the source) -/

/-- Source constant `_xAmzPrefix = "X-Amz-"`. -/
def xAmzPfx : String := "X-Amz-"

/-- Source constant `_xGoogPrefix = "X-Goog-"`. -/
def xGoogPfx : String := "X-Goog-"

/-- `strings.Replace(k, _xAmzPrefix, _xGoogPrefix, 1)`, the header rename
performed by `RoundTrip` on each matching key. -/
def amzRename (k : String) : String := goReplace1 k xAmzPfx xGoogPfx

theorem amzRename_data {k : String} (h : hasPfx k xAmzPfx = true) :
    (amzRename k).data = xGoogPfx.data ++ k.data.drop 6 := by
  have : (goReplace1 k xAmzPfx xGoogPfx).data
      = replace1 xAmzPfx.data xGoogPfx.data k.data := rfl
  rw [amzRename, this, replace1_of_pfx _ h]
  rfl

/-- Nothing that starts with `X-Goog-` starts with `X-Amz-`. -/
theorem pfxOf_amz_goog (r : List Char) :
    pfxOf xAmzPfx.data (xGoogPfx.data ++ r) = false := rfl

/-- A renamed key no longer carries the `X-Amz-` prefix. -/
theorem hasPfx_amzRename {k : String} (h : hasPfx k xAmzPfx = true) :
    hasPfx (amzRename k) xAmzPfx = false := by
  show pfxOf xAmzPfx.data (amzRename k).data = false
  rw [amzRename_data h]
  exact pfxOf_amz_goog _

/-- Renaming moves a key: the new name differs from the old one. -/
theorem amzRename_ne {k : String} (h : hasPfx k xAmzPfx = true) :
    amzRename k ≠ k := by
  intro he
  have hd : (amzRename k).data = k.data := congrArg String.data he
  have hk : k.data = xAmzPfx.data ++ k.data.drop xAmzPfx.data.length :=
    pfxOf_eq_append h
  rw [amzRename_data h] at hd
  have : (xGoogPfx.data ++ k.data.drop 6).length = k.data.length :=
    congrArg List.length hd
  rw [List.length_append] at this
  have hk' : k.data.length = xAmzPfx.data.length + (k.data.drop xAmzPfx.data.length).length := by
    rw [hk, List.length_append]
    simp
  simp only [show xAmzPfx.data.length = 6 from rfl] at hk'
  simp [show xGoogPfx.data.length = 7 from rfl] at this
  omega

/-- `amzRename` is injective on keys carrying the `X-Amz-` prefix. -/
theorem amzRename_inj {k₁ k₂ : String} (h₁ : hasPfx k₁ xAmzPfx = true)
    (h₂ : hasPfx k₂ xAmzPfx = true) (he : amzRename k₁ = amzRename k₂) :
    k₁ = k₂ := by
  have hd : (amzRename k₁).data = (amzRename k₂).data := congrArg String.data he
  rw [amzRename_data h₁, amzRename_data h₂] at hd
  have hr : k₁.data.drop 6 = k₂.data.drop 6 := by
    exact List.append_cancel_left hd
  have e₁ : k₁.data = xAmzPfx.data ++ k₁.data.drop 6 := by
    simpa using pfxOf_eq_append h₁
  have e₂ : k₂.data = xAmzPfx.data ++ k₂.data.drop 6 := by
    simpa using pfxOf_eq_append h₂
  have : k₁.data = k₂.data := by rw [e₁, e₂, hr]
  exact congrArg String.mk this

/-! ## Header maps (`http.Header`) -/

/-- A Go `map[string][]string`, as an association list; read through `hget`,
so order and (never-arising) duplicates are immaterial. -/
abbrev HeaderMap := List (String × List String)

/-- Map read `m[k]` (`none` for a missing key). -/
def hget : HeaderMap → String → Option (List String)
  | [], _ => none
  | (k, v) :: rest, q => if k = q then some v else hget rest q

/-- Go `delete(m, k)`. -/
def hdel : HeaderMap → String → HeaderMap
  | [], _ => []
  | (k, v) :: rest, q => if k = q then hdel rest q else (k, v) :: hdel rest q

/-- Go map assignment `m[k] = v` (replace or insert). -/
def hset (m : HeaderMap) (k : String) (v : List String) : HeaderMap :=
  (k, v) :: hdel m k

theorem hget_hdel (m : HeaderMap) (k q : String) :
    hget (hdel m k) q = if q = k then none else hget m q := by
  induction m with
  | nil => simp [hdel, hget]
  | cons p rest ih =>
    obtain ⟨pk, pv⟩ := p
    by_cases h1 : pk = k
    · subst h1
      by_cases h2 : q = pk
      · subst h2
        simp [hdel, hget, ih]
      · simp [hdel, hget, ih, h2, show ¬(pk = q) from fun he => h2 he.symm]
    · by_cases h2 : pk = q
      · subst h2
        simp [hdel, hget, h1]
      · simp [hdel, hget, h1, h2, ih]

theorem hget_hset (m : HeaderMap) (k q : String) (v : List String) :
    hget (hset m k v) q = if q = k then some v else hget m q := by
  by_cases h : q = k
  · subst h
    simp [hset, hget]
  · simp [hset, hget, h, hget_hdel, show ¬(k = q) from fun he => h he.symm]

theorem hget_some_mem {m : HeaderMap} {q : String} {v : List String}
    (h : hget m q = some v) : q ∈ m.map Prod.fst := by
  induction m with
  | nil => simp [hget] at h
  | cons p rest ih =>
    obtain ⟨pk, pv⟩ := p
    rw [hget] at h
    split at h
    · rename_i he
      simp [he]
    · simpa using Or.inr (ih h)

/-! ## The header-translation loop of `RoundTrip`

Source (`gcp.go`, `RoundTrip`):
```
for k, v := range req.Header {
    if strings.HasPrefix(k, _xAmzPrefix) {
        req.Header[strings.Replace(k, _xAmzPrefix, _xGoogPrefix, 1)] = v
        delete(req.Header, k)
    }
}
```
-/

/-- One iteration of the loop at key `k`, reading `v` from the current map
(the value a Go `range` would deliver at visit time). -/
def amzLoopStep (m : HeaderMap) (k : String) : HeaderMap :=
  match hget m k with
  | none => m
  | some v =>
    if hasPfx k xAmzPfx = true then hdel (hset m (amzRename k) v) k else m

/-- The whole loop: fold the body over the request's header keys.  Keys
inserted during the loop all start with `X-Goog-`, for which the body is a
no-op, so iterating exactly the original keys (in any order; list order is
as good as any) is a faithful model of Go's `range` over the mutated map. -/
def translateHeaders (m : HeaderMap) : HeaderMap :=
  (m.map Prod.fst).foldl amzLoopStep m

theorem amzLoopStep_absent {m : HeaderMap} {j : String}
    (hj : hget m j = none) : amzLoopStep m j = m := by
  unfold amzLoopStep
  rw [hj]

theorem amzLoopStep_noPfx {m : HeaderMap} {j : String} {v : List String}
    (hj : hget m j = some v) (hp : hasPfx j xAmzPfx = false) :
    amzLoopStep m j = m := by
  unfold amzLoopStep
  rw [hj]
  simp [hp]

theorem hget_amzLoopStep_active {m : HeaderMap} {j : String} {v : List String}
    (hj : hget m j = some v) (hp : hasPfx j xAmzPfx = true) (q : String) :
    hget (amzLoopStep m j) q =
      if q = j then none
      else if q = amzRename j then some v else hget m q := by
  unfold amzLoopStep
  rw [hj]
  simp [hp, hget_hdel, hget_hset]

/-- A key with the `X-Amz-` prefix that is absent stays absent across one
iteration: the loop only ever inserts `X-Goog-` keys. -/
theorem amzLoopStep_amz_absent {m : HeaderMap} {q : String} (j : String)
    (hq : hasPfx q xAmzPfx = true) (h : hget m q = none) :
    hget (amzLoopStep m j) q = none := by
  cases hj : hget m j with
  | none => rw [amzLoopStep_absent hj]; exact h
  | some v =>
    cases hpj : hasPfx j xAmzPfx with
    | false => rw [amzLoopStep_noPfx hj hpj]; exact h
    | true =>
      rw [hget_amzLoopStep_active hj hpj]
      by_cases h1 : q = j
      · simp [h1]
      · have h2 : q ≠ amzRename j := by
          intro he
          rw [he] at hq
          rw [hasPfx_amzRename hpj] at hq
          exact Bool.noConfusion hq
        simp [h1, h2, h]

/-- An iteration at key `j` does not touch a different `X-Amz-` key. -/
theorem amzLoopStep_amz_other {m : HeaderMap} {q : String} {j : String}
    (hq : hasPfx q xAmzPfx = true) (hne : q ≠ j) :
    hget (amzLoopStep m j) q = hget m q := by
  cases hj : hget m j with
  | none => rw [amzLoopStep_absent hj]
  | some v =>
    cases hpj : hasPfx j xAmzPfx with
    | false => rw [amzLoopStep_noPfx hj hpj]
    | true =>
      rw [hget_amzLoopStep_active hj hpj]
      have h2 : q ≠ amzRename j := by
        intro he
        rw [he] at hq
        rw [hasPfx_amzRename hpj] at hq
        exact Bool.noConfusion hq
      simp [hne, h2]

/-- After the loop, a key with the `X-Amz-` prefix that was iterated (or was
never present) is gone. -/
theorem hget_fold_amz (ks : List String) (m : HeaderMap) (q : String)
    (hq : hasPfx q xAmzPfx = true) (h : q ∈ ks ∨ hget m q = none) :
    hget (ks.foldl amzLoopStep m) q = none := by
  induction ks generalizing m with
  | nil =>
    rcases h with h | h
    · simp at h
    · simpa using h
  | cons j ks ih =>
    rw [List.foldl_cons]
    rcases h with h | h
    · rcases List.mem_cons.mp h with h1 | h1
      · subst h1
        apply ih
        right
        cases hj : hget m q with
        | none => rw [amzLoopStep_absent hj]; exact hj
        | some v =>
          rw [hget_amzLoopStep_active hj hq]
          simp
      · exact ih _ (Or.inl h1)
    · exact ih _ (Or.inr (amzLoopStep_amz_absent j hq h))

/-- After the loop, a key without the `X-Amz-` prefix that is not the rename
target of any present `X-Amz-` key keeps its original value (possibly
"absent"). -/
theorem hget_fold_nonamz (ks : List String) (m : HeaderMap) (p : String)
    (hp : hasPfx p xAmzPfx = false)
    (h : ∀ k ∈ ks, hasPfx k xAmzPfx = true → hget m k = none ∨ amzRename k ≠ p) :
    hget (ks.foldl amzLoopStep m) p = hget m p := by
  induction ks generalizing m with
  | nil => rfl
  | cons j ks ih =>
    rw [List.foldl_cons]
    have hstep : hget (amzLoopStep m j) p = hget m p := by
      cases hj : hget m j with
      | none => rw [amzLoopStep_absent hj]
      | some v =>
        cases hpj : hasPfx j xAmzPfx with
        | false => rw [amzLoopStep_noPfx hj hpj]
        | true =>
          rw [hget_amzLoopStep_active hj hpj]
          have h1 : p ≠ j := by
            intro he
            rw [he] at hp
            rw [hpj] at hp
            exact Bool.noConfusion hp
          have h2 : amzRename j ≠ p := by
            rcases h j (List.mem_cons_self j ks) hpj with h' | h'
            · rw [h'] at hj
              exact Option.noConfusion hj
            · exact h'
          simp [h1, h2.symm]
    rw [ih _ ?_, hstep]
    intro k hk hpk
    rcases h k (List.mem_cons_of_mem j hk) hpk with h' | h'
    · exact Or.inl (amzLoopStep_amz_absent j hpk h')
    · exact Or.inr h'

/-- After the loop, the rename target of an iterated present `X-Amz-` key
holds exactly that key's original value list. -/
theorem hget_fold_renamed (ks : List String) (m : HeaderMap) (q : String)
    (v : List String) (hq : hasPfx q xAmzPfx = true) (hmem : q ∈ ks)
    (hv : hget m q = some v) :
    hget (ks.foldl amzLoopStep m) (amzRename q) = some v := by
  induction ks generalizing m with
  | nil => simp at hmem
  | cons j ks ih =>
    rw [List.foldl_cons]
    by_cases hqj : q = j
    · subst hqj
      have hm' : hget (amzLoopStep m q) (amzRename q) = some v := by
        rw [hget_amzLoopStep_active hv hq]
        simp [amzRename_ne hq]
      rw [hget_fold_nonamz ks _ _ (hasPfx_amzRename hq) ?_, hm']
      intro k hk hpk
      by_cases hkq : k = q
      · subst hkq
        left
        rw [hget_amzLoopStep_active hv hq]
        simp
      · right
        intro he
        exact hkq (amzRename_inj hpk hq he)
    · have hmem' : q ∈ ks := by
        rcases List.mem_cons.mp hmem with h' | h'
        · exact absurd h' hqj
        · exact h'
      exact ih _ hmem' (by rw [amzLoopStep_amz_other hq hqj]; exact hv)

/-! ## Tokens (`oauth2.Token`) and their validity -/

/-- An `oauth2.Token` as far as this package uses it: the access-token
string and the expiry instant.  Time is an `Int` in seconds; the Go zero
`time.Time` (no expiry known) is modelled as `0`. -/
structure Token where
  accessToken : String
  expiry : Int
  deriving DecidableEq

/-- `oauth2.Token.expired` with the default `expiryDelta` of 10 seconds
(the callee of the `currentToken.Valid()` call in `RoundTrip`; the source
comment: "here Valid() means the token won't be expired in 10 sec"):
a token with a zero expiry never expires, otherwise it is expired once
`expiry - 10s` lies strictly before the current time. -/
def tokenExpired (t : Token) (now : Int) : Bool :=
  if t.expiry = 0 then false else decide (t.expiry - 10 < now)

/-- `oauth2.Token.Valid`, called on the (possibly nil) pointer loaded from
the `currentToken` atomic cell:
`t != nil && t.AccessToken != "" && !t.expired()`. -/
def tokenValid (tok : Option Token) (now : Int) : Bool :=
  match tok with
  | none => false
  | some t => (t.accessToken != "") && !(tokenExpired t now)

/-! ## The wrapping transport -/

/-- `WrapHTTPTransport`.  `tokenSrc` is the outcome the external credential
source's `Token()` call would produce during the modelled `RoundTrip` call
(`Except.error` for a failing source); `cache` is the `currentToken`
atomic pointer (`none` for nil). The `backend` transport is not a field:
delegation to it is recorded in the `RoundTripResult`. -/
structure WrapHTTPTransport where
  tokenSrc : Except String Token
  cache : Option Token

/-- `NewWrapHTTPTransport`: resolving the default token source and building
the default backend are external effects, abstracted into the given
`tokenSrc` outcome; the `currentToken` cell starts as the zero
`atomic.Pointer`, i.e. nil. -/
def NewWrapHTTPTransport (tokenSrc : Except String Token) : WrapHTTPTransport :=
  { tokenSrc := tokenSrc, cache := none }

/-- Observable outcome of one `RoundTrip` call:
* `sent`    — headers of the request handed to `t.backend.RoundTrip`
              (`none` when delegation never happens),
* `err`     — the error returned by `RoundTrip` itself (`none` when it
              returns the backend's response verbatim),
* `credCalls` — how many times `t.tokenSrc.Token()` was invoked,
* `cacheAfter` — contents of the `currentToken` cell after the call. -/
structure RoundTripResult where
  sent : Option HeaderMap
  err : Option String
  credCalls : Nat
  cacheAfter : Option Token
  deriving DecidableEq

/-- `(*WrapHTTPTransport).RoundTrip`, transcribed from the source:
translate the `X-Amz-` headers, then either reuse a valid cached token or
fetch a fresh one (failing the whole call if the source fails, with the
error wrapped as "failed to acquire token"), set the `Authorization`
header to `Bearer <token>`, store a fresh token, and delegate. -/
def RoundTrip (w : WrapHTTPTransport) (now : Int) (req : HeaderMap) :
    RoundTripResult :=
  let hdr := translateHeaders req
  match w.cache, tokenValid w.cache now with
  | some tok, true =>
    { sent := some (hset hdr "Authorization" ["Bearer " ++ tok.accessToken])
      err := none
      credCalls := 0
      cacheAfter := w.cache }
  | _, _ =>
    match w.tokenSrc with
    | Except.error e =>
      { sent := none
        err := some ("failed to acquire token: " ++ e)
        credCalls := 1
        cacheAfter := w.cache }
    | Except.ok newToken =>
      { sent := some (hset hdr "Authorization" ["Bearer " ++ newToken.accessToken])
        err := none
        credCalls := 1
        cacheAfter := some newToken }

/-! ## The client factory (`NewMinioClient`) -/

/-- `credentials.Credentials` as used here: only static credentials appear
(`credentials.NewStaticV2(id, secret, token)`). -/
structure StaticCreds where
  id : String
  secret : String
  token : String
  deriving DecidableEq

/-- The transport installed into `minio.Options.Transport`: either absent
(nil), or the wrapping transport built with a given secure flag. -/
inductive TransportOpt where
  | wrapHTTP (secure : Bool)
  deriving DecidableEq

/-- The fields of `minio.Options` that `NewMinioClient` reads or writes.
The Go zero value has `Creds` and `Transport` nil and `Secure` false. -/
structure Options where
  creds : Option StaticCreds
  secure : Bool
  transport : Option TransportOpt
  deriving DecidableEq

/-- Source constant `GcsDefaultAddress`. -/
def GcsDefaultAddress : String := "storage.googleapis.com"

/-- The arguments `NewMinioClient` hands to `minio.New` on success. -/
structure MinioClient where
  address : String
  opts : Options
  deriving DecidableEq

/-- `NewMinioClient`, transcribed from the source.  `minio.New` itself is
external; the model returns the address and options it receives.  Building
the wrapping transport can fail (`NewWrapHTTPTransport` resolves ambient
credentials); `wrapOk` is that external outcome, and on failure the wrapped
construction error is returned as in the source. -/
def NewMinioClient (address : String) (optsIn : Option Options)
    (wrapOk : Bool) : Except String MinioClient :=
  let opts := match optsIn with
    | none => ({ creds := none, secure := false, transport := none } : Options)
    | some o => o
  let p : String × Options :=
    if address = "" then (GcsDefaultAddress, { opts with secure := true })
    else (address, opts)
  let address := if goContains p.1 GcsDefaultAddress = true then GcsDefaultAddress else p.1
  let opts := p.2
  match opts.creds with
  | some _ => Except.ok { address := address, opts := opts }
  | none =>
    if wrapOk then
      Except.ok
        { address := address
          opts :=
            { opts with
              transport := some (TransportOpt.wrapHTTP opts.secure)
              creds := some { id := "", secret := "", token := "" } } }
    else Except.error "failed to create default transport"

/-! ## Claims -/

/-- C1: after the header-translation step of `RoundTrip`, no header whose
name starts with `X-Amz-` remains, and each such original header's value
list is carried verbatim by the header whose name is the original with the
prefix replaced by `X-Goog-` (rest of the name untouched, which is what
`strings.Replace(k, "X-Amz-", "X-Goog-", 1)` does to a key with that
prefix). -/
theorem translate_amz_headers (m : HeaderMap) (k : String)
    (hk : hasPfx k xAmzPfx = true) :
    hget (translateHeaders m) k = none ∧
    ∀ v, hget m k = some v →
      hget (translateHeaders m) (goReplace1 k xAmzPfx xGoogPfx) = some v := by
  constructor
  · apply hget_fold_amz _ _ _ hk
    cases hv : hget m k with
    | none => exact Or.inr rfl
    | some v => exact Or.inl (hget_some_mem hv)
  · intro v hv
    exact hget_fold_renamed _ _ _ _ hk (hget_some_mem hv) hv

theorem translate_amz_headers_witness :
    hasPfx "X-Amz-Date" xAmzPfx = true ∧
    (hget (translateHeaders [("X-Amz-Date", ["d"])]) "X-Amz-Date" = none ∧
     ∀ v, hget [("X-Amz-Date", ["d"])] "X-Amz-Date" = some v →
       hget (translateHeaders [("X-Amz-Date", ["d"])])
         (goReplace1 "X-Amz-Date" xAmzPfx xGoogPfx) = some v) :=
  ⟨rfl, translate_amz_headers [("X-Amz-Date", ["d"])] "X-Amz-Date" rfl⟩

/-- C2: when the cache holds a token the `Valid()` check accepts, `RoundTrip`
never invokes the credential source's `Token()` and delegates with the
`Authorization` header set from the cached token's access string. -/
theorem roundTrip_valid_cache_hit (src : Except String Token) (t : Token)
    (now : Int) (req : HeaderMap)
    (hv : tokenValid (some t) now = true) :
    (RoundTrip ⟨src, some t⟩ now req).credCalls = 0 ∧
    (RoundTrip ⟨src, some t⟩ now req).sent
      = some (hset (translateHeaders req) "Authorization"
          ["Bearer " ++ t.accessToken]) := by
  unfold RoundTrip
  simp [hv]

theorem roundTrip_valid_cache_hit_witness :
    tokenValid (some ⟨"cached", 100⟩) 5 = true ∧
    ((RoundTrip ⟨Except.ok ⟨"new", 500⟩, some ⟨"cached", 100⟩⟩ 5 []).credCalls = 0 ∧
     (RoundTrip ⟨Except.ok ⟨"new", 500⟩, some ⟨"cached", 100⟩⟩ 5 []).sent
       = some (hset (translateHeaders []) "Authorization"
           ["Bearer " ++ ("cached" : String)])) :=
  ⟨rfl, roundTrip_valid_cache_hit _ _ _ _ rfl⟩

/-- C3: on an empty or invalid cache, `RoundTrip` invokes `Token()` exactly
once during the call — whatever that call's outcome — and whenever the
acquisition succeeds it stores the fresh token in the cache and reaches
delegation (with the fresh token's bearer header). -/
theorem roundTrip_refresh_stores (w : WrapHTTPTransport) (now : Int)
    (req : HeaderMap) (hv : tokenValid w.cache now = false) :
    (RoundTrip w now req).credCalls = 1 ∧
    ∀ newTok, w.tokenSrc = Except.ok newTok →
      (RoundTrip w now req).cacheAfter = some newTok ∧
      (RoundTrip w now req).sent
        = some (hset (translateHeaders req) "Authorization"
            ["Bearer " ++ newTok.accessToken]) := by
  obtain ⟨src, cache⟩ := w
  simp only at hv ⊢
  cases cache with
  | none =>
    cases src with
    | error e => exact ⟨rfl, fun newTok hs => by cases hs⟩
    | ok tok =>
      refine ⟨rfl, fun newTok hs => ?_⟩
      cases hs
      exact ⟨rfl, rfl⟩
  | some t =>
    cases src with
    | error e =>
      refine ⟨?_, fun newTok hs => by cases hs⟩
      unfold RoundTrip
      simp [hv]
    | ok tok =>
      refine ⟨?_, fun newTok hs => ?_⟩
      · unfold RoundTrip
        simp [hv]
      · cases hs
        unfold RoundTrip
        simp [hv]

theorem roundTrip_refresh_stores_witness :
    tokenValid (none : Option Token) 5 = false ∧
    ((RoundTrip ⟨Except.ok ⟨"new", 500⟩, none⟩ 5 []).credCalls = 1 ∧
     ∀ newTok,
       (⟨Except.ok ⟨"new", 500⟩, none⟩ : WrapHTTPTransport).tokenSrc
           = Except.ok newTok →
       (RoundTrip ⟨Except.ok ⟨"new", 500⟩, none⟩ 5 []).cacheAfter = some newTok ∧
       (RoundTrip ⟨Except.ok ⟨"new", 500⟩, none⟩ 5 []).sent
         = some (hset (translateHeaders []) "Authorization"
             ["Bearer " ++ newTok.accessToken])) :=
  ⟨rfl, roundTrip_refresh_stores ⟨Except.ok ⟨"new", 500⟩, none⟩ 5 [] rfl⟩

/-- C4: if `Token()` fails on a cache miss, `RoundTrip` returns the error
wrapped with the token-acquisition context, the backend is never invoked,
and the cache is left unchanged. -/
theorem roundTrip_token_error (w : WrapHTTPTransport) (now : Int)
    (req : HeaderMap) (e : String)
    (hv : tokenValid w.cache now = false)
    (hs : w.tokenSrc = Except.error e) :
    (RoundTrip w now req).err = some ("failed to acquire token: " ++ e) ∧
    (RoundTrip w now req).sent = none ∧
    (RoundTrip w now req).cacheAfter = w.cache := by
  obtain ⟨src, cache⟩ := w
  simp only at hv hs
  subst hs
  cases cache with
  | none => exact ⟨rfl, rfl, rfl⟩
  | some t =>
    unfold RoundTrip
    simp [hv]

theorem roundTrip_token_error_witness :
    tokenValid (none : Option Token) 5 = false ∧
    ((⟨Except.error "boom", none⟩ : WrapHTTPTransport).tokenSrc
       = Except.error "boom") ∧
    ((RoundTrip ⟨Except.error "boom", none⟩ 5 []).err
       = some ("failed to acquire token: " ++ "boom") ∧
     (RoundTrip ⟨Except.error "boom", none⟩ 5 []).sent = none ∧
     (RoundTrip ⟨Except.error "boom", none⟩ 5 []).cacheAfter
       = (⟨Except.error "boom", none⟩ : WrapHTTPTransport).cache) :=
  ⟨rfl, rfl, roundTrip_token_error _ _ _ _ rfl rfl⟩

/-- C5: whenever a `RoundTrip` call reaches delegation, the delegated
request's `Authorization` header is exactly `Bearer ` ++ the access string
of the token chosen for the call (the cached one if it was valid, the
freshly acquired one otherwise), regardless of any prior value. -/
theorem roundTrip_authorization_bearer (w : WrapHTTPTransport) (now : Int)
    (req : HeaderMap) (h : HeaderMap)
    (hs : (RoundTrip w now req).sent = some h) :
    ∃ tok : Token,
      ((tokenValid w.cache now = true ∧ w.cache = some tok) ∨
       (tokenValid w.cache now = false ∧ w.tokenSrc = Except.ok tok)) ∧
      hget h "Authorization" = some ["Bearer " ++ tok.accessToken] := by
  obtain ⟨src, cache⟩ := w
  simp only at hs ⊢
  cases cache with
  | none =>
    cases src with
    | error e => exact absurd hs (by simp [RoundTrip])
    | ok tok =>
      refine ⟨tok, Or.inr ⟨rfl, rfl⟩, ?_⟩
      have : h = hset (translateHeaders req) "Authorization"
          ["Bearer " ++ tok.accessToken] := by
        simpa [RoundTrip] using hs.symm
      rw [this, hget_hset]
      simp
  | some t =>
    cases hv : tokenValid (some t) now with
    | true =>
      refine ⟨t, Or.inl ⟨rfl, rfl⟩, ?_⟩
      have : h = hset (translateHeaders req) "Authorization"
          ["Bearer " ++ t.accessToken] := by
        have := hs
        unfold RoundTrip at this
        simp [hv] at this
        exact this.symm
      rw [this, hget_hset]
      simp
    | false =>
      cases src with
      | error e =>
        exfalso
        have := hs
        unfold RoundTrip at this
        simp [hv] at this
      | ok tok =>
        refine ⟨tok, Or.inr ⟨rfl, rfl⟩, ?_⟩
        have : h = hset (translateHeaders req) "Authorization"
            ["Bearer " ++ tok.accessToken] := by
          have := hs
          unfold RoundTrip at this
          simp [hv] at this
          exact this.symm
        rw [this, hget_hset]
        simp

theorem roundTrip_authorization_bearer_witness :
    (RoundTrip ⟨Except.ok ⟨"new", 500⟩, some ⟨"cached", 100⟩⟩ 5
        [("Authorization", ["stale"])]).sent
      = some (hset (translateHeaders [("Authorization", ["stale"])])
          "Authorization" ["Bearer " ++ ("cached" : String)]) ∧
    ∃ tok : Token,
      ((tokenValid (some ⟨"cached", 100⟩) 5 = true ∧
          (some ⟨"cached", 100⟩ : Option Token) = some tok) ∨
       (tokenValid (some ⟨"cached", 100⟩) 5 = false ∧
          (Except.ok ⟨"new", 500⟩ : Except String Token) = Except.ok tok)) ∧
      hget (hset (translateHeaders [("Authorization", ["stale"])])
          "Authorization" ["Bearer " ++ ("cached" : String)]) "Authorization"
        = some ["Bearer " ++ tok.accessToken] :=
  ⟨rfl,
    roundTrip_authorization_bearer ⟨Except.ok ⟨"new", 500⟩, some ⟨"cached", 100⟩⟩
      5 [("Authorization", ["stale"])]
      (hset (translateHeaders [("Authorization", ["stale"])])
        "Authorization" ["Bearer " ++ ("cached" : String)]) rfl⟩

/-- C6 counterexample.  The claim says a cached token is reused only if the
current time is *more than* 10 seconds before its expiry.  Two refuting
inputs: (a) at `now = 0` a token expiring at `10` is exactly — not more
than — 10 seconds from expiry, yet `RoundTrip` reuses it without calling
the source; (b) a token whose expiry is the zero value is reused at
`now = 99` although the current time is long past that expiry. -/
theorem roundTrip_margin_cex :
    ((RoundTrip ⟨Except.ok ⟨"n", 1000⟩, some ⟨"a", 10⟩⟩ 0 []).credCalls = 0 ∧
      ¬((0 : Int) + 10 < 10)) ∧
    ((RoundTrip ⟨Except.ok ⟨"n", 1000⟩, some ⟨"a", 0⟩⟩ 99 []).credCalls = 0 ∧
      ¬((99 : Int) + 10 < 0)) :=
  ⟨⟨rfl, by decide⟩, ⟨rfl, by decide⟩⟩

/-- C6 (amended): `RoundTrip` reuses a cached token without consulting the
credential source only if the token's access string is non-empty and either
its expiry is the zero value (such a token never expires) or the current
time is at least — not strictly more than — the 10-second safety margin
before the expiry. -/
theorem roundTrip_reuse_margin (w : WrapHTTPTransport) (now : Int)
    (req : HeaderMap) (h : (RoundTrip w now req).credCalls = 0) :
    ∃ t : Token, w.cache = some t ∧ t.accessToken ≠ "" ∧
      (t.expiry = 0 ∨ now + 10 ≤ t.expiry) := by
  obtain ⟨src, cache⟩ := w
  simp only at h ⊢
  cases cache with
  | none =>
    exfalso
    cases src with
    | error e => exact absurd h (by simp [RoundTrip])
    | ok tok => exact absurd h (by simp [RoundTrip])
  | some t =>
    cases hv : tokenValid (some t) now with
    | false =>
      exfalso
      unfold RoundTrip at h
      cases src with
      | error e => simp [hv] at h
      | ok tok => simp [hv] at h
    | true =>
      refine ⟨t, rfl, ?_, ?_⟩
      · intro he
        rw [tokenValid] at hv
        simp [he] at hv
      · rw [tokenValid] at hv
        rw [Bool.and_eq_true] at hv
        have hexp := hv.2
        rw [Bool.not_eq_eq_eq_not] at hexp
        simp only [Bool.not_true] at hexp
        rw [tokenExpired] at hexp
        by_cases hz : t.expiry = 0
        · exact Or.inl hz
        · right
          rw [if_neg hz] at hexp
          have := of_decide_eq_false hexp
          omega

theorem roundTrip_reuse_margin_witness :
    (RoundTrip ⟨Except.ok ⟨"n", 1000⟩, some ⟨"a", 100⟩⟩ 5 []).credCalls = 0 ∧
    ∃ t : Token,
      (⟨Except.ok ⟨"n", 1000⟩, some ⟨"a", 100⟩⟩ : WrapHTTPTransport).cache = some t ∧
      t.accessToken ≠ "" ∧ ((5 : Int) + 10 ≤ t.expiry ∨ t.expiry = 0 → True) ∧
      (t.expiry = 0 ∨ (5 : Int) + 10 ≤ t.expiry) :=
  ⟨rfl, by
    obtain ⟨t, h1, h2, h3⟩ :=
      roundTrip_reuse_margin ⟨Except.ok ⟨"n", 1000⟩, some ⟨"a", 100⟩⟩ 5 [] rfl
    exact ⟨t, h1, h2, fun _ => trivial, h3⟩⟩

/-- C7 counterexample.  The claim says every header whose name does not
start with `X-Amz-` is left untouched.  But when both `X-Amz-Foo` and
`X-Goog-Foo` are present, renaming `X-Amz-Foo` overwrites the value of the
pre-existing `X-Goog-Foo` header. -/
theorem translate_collision_cex :
    hasPfx "X-Goog-Foo" xAmzPfx = false ∧
    hget [("X-Amz-Foo", ["a"]), ("X-Goog-Foo", ["b"])] "X-Goog-Foo" = some ["b"] ∧
    hget (translateHeaders [("X-Amz-Foo", ["a"]), ("X-Goog-Foo", ["b"])])
      "X-Goog-Foo" = some ["a"] ∧
    (["a"] : List String) ≠ ["b"] :=
  ⟨rfl, rfl, rfl, by decide⟩

/-- C7 (amended): the header-translation step leaves unchanged (name and
value list) every header whose name does not start with `X-Amz-` *and* is
not the `X-Goog-` rename target of an `X-Amz-` header present in the
request. -/
theorem translate_nonamz_preserved (m : HeaderMap) (q : String)
    (hq : hasPfx q xAmzPfx = false)
    (hnc : ∀ k, hasPfx k xAmzPfx = true → hget m k ≠ none → amzRename k ≠ q) :
    hget (translateHeaders m) q = hget m q := by
  apply hget_fold_nonamz _ _ _ hq
  intro k hk hpk
  by_cases h : hget m k = none
  · exact Or.inl h
  · exact Or.inr (hnc k hpk h)

theorem translate_nonamz_preserved_witness :
    hasPfx "Content-Type" xAmzPfx = false ∧
    hget (translateHeaders [("Content-Type", ["ct"])]) "Content-Type"
      = hget [("Content-Type", ["ct"])] "Content-Type" :=
  ⟨rfl,
    translate_nonamz_preserved [("Content-Type", ["ct"])] "Content-Type" rfl
      (by
        intro k hk hne
        by_cases h : ("Content-Type" : String) = k
        · subst h
          exact absurd hk (by decide)
        · exact absurd (show hget [("Content-Type", ["ct"])] k = none by
            simp [hget, h]) hne)⟩

/-- C8: `NewMinioClient`'s address normalization — an empty address becomes
exactly the canonical GCS endpoint with secure transport forced on; any
address containing the substring `storage.googleapis.com` is collapsed to
exactly that string; any other address reaches client construction
unchanged. -/
theorem newMinioClient_address_normalization (address : String)
    (opts : Options) (wrapOk : Bool) (c : MinioClient)
    (h : NewMinioClient address (some opts) wrapOk = Except.ok c) :
    (address = "" → c.address = GcsDefaultAddress ∧ c.opts.secure = true) ∧
    (goContains address GcsDefaultAddress = true → c.address = GcsDefaultAddress) ∧
    (goContains address GcsDefaultAddress = false → address ≠ "" →
      c.address = address) := by
  have hself : goContains GcsDefaultAddress GcsDefaultAddress = true := rfl
  by_cases ha : address = ""
  · subst ha
    cases hcr : opts.creds with
    | some s =>
      simp [NewMinioClient, hcr, hself] at h
      subst h
      exact ⟨fun _ => ⟨rfl, rfl⟩, fun _ => rfl, fun _ hne => absurd rfl hne⟩
    | none =>
      cases wrapOk with
      | false => simp [NewMinioClient, hcr, hself] at h
      | true =>
        simp [NewMinioClient, hcr, hself] at h
        subst h
        exact ⟨fun _ => ⟨rfl, rfl⟩, fun _ => rfl, fun _ hne => absurd rfl hne⟩
  · cases hg : goContains address GcsDefaultAddress with
    | true =>
      cases hcr : opts.creds with
      | some s =>
        simp [NewMinioClient, ha, hcr, hg] at h
        subst h
        exact ⟨fun he => absurd he ha, fun _ => rfl,
          fun hg' _ => Bool.noConfusion hg'⟩
      | none =>
        cases wrapOk with
        | false => simp [NewMinioClient, ha, hcr, hg] at h
        | true =>
          simp [NewMinioClient, ha, hcr, hg] at h
          subst h
          exact ⟨fun he => absurd he ha, fun _ => rfl,
            fun hg' _ => Bool.noConfusion hg'⟩
    | false =>
      cases hcr : opts.creds with
      | some s =>
        simp [NewMinioClient, ha, hcr, hg] at h
        subst h
        exact ⟨fun he => absurd he ha,
          fun hg' => Bool.noConfusion hg', fun _ _ => rfl⟩
      | none =>
        cases wrapOk with
        | false => simp [NewMinioClient, ha, hcr, hg] at h
        | true =>
          simp [NewMinioClient, ha, hcr, hg] at h
          subst h
          exact ⟨fun he => absurd he ha,
            fun hg' => Bool.noConfusion hg', fun _ _ => rfl⟩

theorem newMinioClient_address_normalization_witness :
    NewMinioClient "storage.googleapis.com:443"
        (some { creds := none, secure := true, transport := none }) true
      = Except.ok
          { address := "storage.googleapis.com"
            opts := { creds := some ⟨"", "", ""⟩, secure := true
                      transport := some (TransportOpt.wrapHTTP true) } } ∧
    (("storage.googleapis.com:443" : String) = "" →
      ("storage.googleapis.com" : String) = GcsDefaultAddress ∧ True) ∧
    (goContains "storage.googleapis.com:443" GcsDefaultAddress = true →
      ("storage.googleapis.com" : String) = GcsDefaultAddress) :=
  ⟨rfl, by
    have := newMinioClient_address_normalization "storage.googleapis.com:443"
      { creds := none, secure := true, transport := none } true
      { address := "storage.googleapis.com"
        opts := { creds := some ⟨"", "", ""⟩, secure := true
                  transport := some (TransportOpt.wrapHTTP true) } } rfl
    exact ⟨fun he => ⟨this.1 he |>.1, trivial⟩, this.2.1⟩⟩

/-- C9 counterexample.  The claim says that with explicit static
credentials the client is built with the options unmodified; but with an
empty address the factory forces `Secure` on before the credential check,
so the options do change. -/
theorem newMinioClient_secure_forced_cex :
    NewMinioClient ""
        (some { creds := some ⟨"ak", "sk", ""⟩, secure := false, transport := none })
        true
      = Except.ok
          { address := "storage.googleapis.com"
            opts := { creds := some ⟨"ak", "sk", ""⟩, secure := true
                      transport := none } } ∧
    ({ creds := some ⟨"ak", "sk", ""⟩, secure := true, transport := none } : Options)
      ≠ { creds := some ⟨"ak", "sk", ""⟩, secure := false, transport := none } :=
  ⟨rfl, by decide⟩

/-- C9 (amended): if the options carry explicit static credentials, the
client is built with those options unmodified — except that an empty
address forces the secure flag on — and no wrapping transport is
installed; otherwise a `WrapHTTPTransport` (for the resulting secure flag)
is installed as the options' transport together with empty placeholder
static credentials. -/
theorem newMinioClient_credential_dispatch (address : String)
    (opts : Options) (wrapOk : Bool) (c : MinioClient)
    (h : NewMinioClient address (some opts) wrapOk = Except.ok c) :
    (opts.creds.isSome = true →
       c.opts = { opts with secure := if address = "" then true else opts.secure }) ∧
    (opts.creds = none →
       c.opts = { creds := some ⟨"", "", ""⟩
                  secure := if address = "" then true else opts.secure
                  transport := some (TransportOpt.wrapHTTP
                    (if address = "" then true else opts.secure)) }) := by
  by_cases ha : address = ""
  · subst ha
    cases hcr : opts.creds with
    | some s =>
      simp [NewMinioClient, hcr] at h
      subst h
      refine ⟨fun _ => ?_, fun hn => Option.noConfusion hn⟩
      cases opts
      simp_all
    | none =>
      cases wrapOk with
      | false => simp [NewMinioClient, hcr] at h
      | true =>
        simp [NewMinioClient, hcr] at h
        subst h
        refine ⟨fun hcs => ?_, fun _ => ?_⟩
        · exact Bool.noConfusion hcs
        · simp
  · cases hg : goContains address GcsDefaultAddress with
    | true =>
      cases hcr : opts.creds with
      | some s =>
        simp [NewMinioClient, ha, hcr, hg] at h
        subst h
        refine ⟨fun _ => ?_, fun hn => Option.noConfusion hn⟩
        cases opts
        simp_all
      | none =>
        cases wrapOk with
        | false => simp [NewMinioClient, ha, hcr, hg] at h
        | true =>
          simp [NewMinioClient, ha, hcr, hg] at h
          subst h
          refine ⟨fun hcs => ?_, fun _ => ?_⟩
          · exact Bool.noConfusion hcs
          · simp [ha]
    | false =>
      cases hcr : opts.creds with
      | some s =>
        simp [NewMinioClient, ha, hcr, hg] at h
        subst h
        refine ⟨fun _ => ?_, fun hn => Option.noConfusion hn⟩
        cases opts
        simp_all
      | none =>
        cases wrapOk with
        | false => simp [NewMinioClient, ha, hcr, hg] at h
        | true =>
          simp [NewMinioClient, ha, hcr, hg] at h
          subst h
          refine ⟨fun hcs => ?_, fun _ => ?_⟩
          · exact Bool.noConfusion hcs
          · simp [ha]

theorem newMinioClient_credential_dispatch_witness :
    NewMinioClient "myminio.local:9000"
        (some { creds := some ⟨"ak", "sk", ""⟩, secure := false, transport := none })
        true
      = Except.ok
          { address := "myminio.local:9000"
            opts := { creds := some ⟨"ak", "sk", ""⟩, secure := false
                      transport := none } } ∧
    (Option.isSome (some (⟨"ak", "sk", ""⟩ : StaticCreds)) = true →
      ({ creds := some ⟨"ak", "sk", ""⟩, secure := false, transport := none } : Options)
        = { creds := some ⟨"ak", "sk", ""⟩
            secure := if ("myminio.local:9000" : String) = "" then true else false
            transport := none }) :=
  ⟨rfl, by
    have := newMinioClient_credential_dispatch "myminio.local:9000"
      { creds := some ⟨"ak", "sk", ""⟩, secure := false, transport := none } true
      { address := "myminio.local:9000"
        opts := { creds := some ⟨"ak", "sk", ""⟩, secure := false
                  transport := none } } rfl
    intro hcs
    exact this.1 hcs⟩

/-- C10: a freshly constructed `WrapHTTPTransport` has an empty (nil) token
cache; the `Valid()` check on the loaded nil pointer returns `false`
(rather than faulting — `oauth2.Token.Valid` explicitly checks for nil, and
the model's total functions mirror that), and the first `RoundTrip` call
therefore takes the refresh path. -/
theorem roundTrip_empty_cache_safe (src : Except String Token) (now : Int)
    (req : HeaderMap) :
    (NewWrapHTTPTransport src).cache = none ∧
    tokenValid (NewWrapHTTPTransport src).cache now = false ∧
    (RoundTrip (NewWrapHTTPTransport src) now req).credCalls = 1 := by
  refine ⟨rfl, rfl, ?_⟩
  cases src with
  | error e => rfl
  | ok tok => rfl

end Gcp
